import Mathlib

/-!
Verification of the Epoch timeline chart (`src/timeline.ts`).

Shallow embedding conventions:
 - moment.js time values are modelled as integer millisecond timestamps
   (`Time := ℤ`), ordered as the timestamps; `isBefore`/`isAfter` become
   `<`/`>`.  Pixel positions along the time axis are likewise integers;
   only the vertical offsets and the SVG geometry (where halves such as
   17/2 arise) use `ℚ`.
 - `moment().add(k, 'years')` is modelled as adding `k` fixed-length years
   (calendar-year irregularities are irrelevant to every property below).
 - A nullable / possibly-invalid moment is `Option Time` (`none` = `null`
   or an invalid moment).
 - The d3 time scale is a record of its forward map, its inverse and its
   domain endpoints.
 - `d3.map` keyed by series is an association list with d3's `set`
   semantics (replace when present, append when absent).
 - Text measurement (`Epoch.Util.getTextWidth`, a canvas call) is an
   injected pure function `String → ℤ` (pixel width).
-/

namespace Epoch

/-- moment.js time values, modelled as integer millisecond timestamps. -/
abbrev Time := ℤ

/-- Fixed-length model of one calendar year (milliseconds in 365 days). -/
def yearLength : ℤ := 31536000000

/-- `m.add(k, 'years')` / `m.subtract(-k, 'years')` from moment.js. -/
def addYears (t : Time) (k : ℤ) : Time := t + k * yearLength

/-- `CHART_LATERAL_PADDING_IN_YEARS` from timeline.ts. -/
def CHART_LATERAL_PADDING_IN_YEARS : ℤ := 10

/-- `EVENT_VERTICAL_MARGIN` from timeline.ts. -/
def EVENT_VERTICAL_MARGIN : ℚ := 5

/-- `EVENT_HEIGHT` from timeline.ts. -/
def EVENT_HEIGHT : ℚ := 17

/-- `EVENT_HEIGHT_PLUS_MARGIN = EVENT_HEIGHT + EVENT_VERTICAL_MARGIN`. -/
def EVENT_HEIGHT_PLUS_MARGIN : ℚ := EVENT_HEIGHT + EVENT_VERTICAL_MARGIN

/-- `EVENT_RIGHT_MARGIN_IN_YEARS` from timeline.ts. -/
def EVENT_RIGHT_MARGIN_IN_YEARS : ℤ := 20

/-- `TimeEventKind.Instant` (the const enum value 1). -/
def instantKind : ℤ := 1

/-- `TimeEventKind.Interval` (the const enum value 2). -/
def intervalKind : ℤ := 2

/-- The `TimeEvent` class of timeline.ts.  `kind` is the result of
`parseInt(kind, 10)` (`none` models `NaN`); `begin`/`end` are the results of
`TimeEvent.strToMoment` (`none` models `null`). -/
structure TimeEvent where
  id : ℤ
  series : String
  kind : Option ℤ
  title : String
  begin : Option Time
  «end» : Option Time
  hasNoEnd : Bool
  description : String
  url : String
deriving DecidableEq

/-- `TimeEvent.strToMoment`: returns `null` for an empty string, otherwise
parses with the strict format list `VALID_DATE_FORMATS` and keeps the result
only when it is a valid moment.  The moment library's strict multi-format
parse (ISO-8601 / YYYY-MM-DD / YYYY) is the injected function `parse`,
already returning `none` for an invalid parse, so the source's
`result !== null && result.isValid() ? result : null` collapses to the
`parse` result.  (The source's `typeof date == 'string'` guard is enforced
by the Lean type.) -/
def strToMoment (parse : String → Option Time) (date : String) : Option Time :=
  if date.length > 0 then parse date else none

/-- Model of JavaScript `parseInt(s, 10)`: optional leading spaces and sign
followed by the longest digit prefix; `none` models `NaN` (no digits). -/
def parseInt10 (s : String) : Option ℤ :=
  let digitVal : List Char → ℕ := fun cs =>
    cs.foldl (fun acc c => 10 * acc + (c.toNat - 48)) 0
  let parseDigits : List Char → Option ℕ := fun cs =>
    let ds := cs.takeWhile Char.isDigit
    if ds.isEmpty then none else some (digitVal ds)
  let cs := s.data.dropWhile (fun c => c = ' ')
  match cs with
  | '-' :: rest => (parseDigits rest).map (fun n => -(n : ℤ))
  | '+' :: rest => (parseDigits rest).map (fun n => (n : ℤ))
  | _ => (parseDigits cs).map (fun n => (n : ℤ))

/-- The `TimeEvent` constructor: `kind = parseInt(kind, 10)`,
`begin`/`end` via `strToMoment`, `hasNoEnd = (end === null)`. -/
def TimeEvent.make (parse : String → Option Time) (id : ℤ)
    (series kind title bgn fin description url : String) : TimeEvent :=
  let endMoment := strToMoment parse fin
  { id := id
    series := series
    kind := parseInt10 kind
    title := title
    begin := strToMoment parse bgn
    «end» := endMoment
    hasNoEnd := endMoment.isNone
    description := description
    url := url }

/-- Model of `d3.time.scale()`: the forward map `timeScale(t)`, its inverse
`timeScale.invert(p)`, and the domain endpoints `timeScale.domain()`. -/
structure TimeScale where
  scale : Time → ℤ
  invert : ℤ → Time
  domainStart : Time
  domainEnd : Time

/-- The `Interval` type of timeline.ts: an occupied `[begin, worstCaseEnd]`
extent stored for overlap testing. -/
abbrev Interval := Time × Time

/-- One packing row: the intervals already reserved in that row. -/
abbrev Row := List Interval

/-- The `allocatedSlotsBySeries : d3.Map<Interval[][]>` packing state,
as an association list from series key to its row list. -/
abbrev SlotsBySeries := List (String × List Row)

/-- `d3.map.has(key)`. -/
def mapHas (m : SlotsBySeries) (k : String) : Bool :=
  m.any (fun p => p.1 == k)

/-- `d3.map.get(key)` (`none` when the key is absent). -/
def mapGet (m : SlotsBySeries) (k : String) : Option (List Row) :=
  (m.find? (fun p => p.1 == k)).map (fun p => p.2)

/-- `d3.map.set(key, value)`: replace the entry when the key is present,
append it otherwise. -/
def mapSet (m : SlotsBySeries) (k : String) (v : List Row) : SlotsBySeries :=
  if mapHas m k then m.map (fun p => if p.1 == k then (k, v) else p)
  else m ++ [(k, v)]

/-- The rows currently allocated for series `k` (empty when the series has
no entry yet). -/
def seriesRows (m : SlotsBySeries) (k : String) : List Row :=
  (mapGet m k).getD []

/-- The overlap test of `calculateEventTopPosition` against one reserved
interval: `newInterval[1].isBefore(interval[0]) ||
newInterval[0].isAfter(interval[1])`. -/
def intervalFitsBeside (newInterval interval : Interval) : Bool :=
  decide (newInterval.2 < interval.1) || decide (newInterval.1 > interval.2)

/-- `row.every(...)`: the new interval passes the overlap test against every
interval already reserved in this row. -/
def fitsInRow (newInterval : Interval) (row : Row) : Bool :=
  row.all (intervalFitsBeside newInterval)

/-- The `allocatedSlots.some(...)` loop of `calculateEventTopPosition`:
scan the rows in index order; at the first row passing the overlap test,
push the new interval onto that row and report its index.  `none` when no
existing row admits the interval. -/
def placeInRows (newInterval : Interval) : List Row → Option (List Row × ℕ)
  | [] => none
  | row :: rest =>
    if fitsInRow newInterval row then some ((row ++ [newInterval]) :: rest, 0)
    else
      match placeInRows newInterval rest with
      | some (rows, k) => some (row :: rows, k + 1)
      | none => none

/-- The whole placement step: first-fit into an existing row, else
`allocatedSlots.push([newInterval])` with `level = allocatedSlots.length - 1`
(the pre-push length). -/
def placeEventLevel (newInterval : Interval) (rows : List Row) :
    List Row × ℕ :=
  match placeInRows newInterval rows with
  | some r => r
  | none => (rows ++ [[newInterval]], rows.length)

/-- The `endOfText` computation of `calculateEventTopPosition`:
`moment(timeScale.invert(timeScale(begin) + getTextWidth(title)))
  .add(EVENT_RIGHT_MARGIN_IN_YEARS, 'years')`. -/
def endOfText (ts : TimeScale) (getTextWidth : String → ℤ)
    (eventToFit : TimeEvent) (b : Time) : Time :=
  addYears (ts.invert (ts.scale b + getTextWidth eventToFit.title))
    EVENT_RIGHT_MARGIN_IN_YEARS

/-- The `worstCaseEnd` computation of `calculateEventTopPosition`:
instants occupy out to their label's end; open-ended events occupy out to
`timeScale.domain()[1]`; closed events occupy out to
`moment.max(end, endOfText)`.  `none` models the invalid moment produced
when a closed event carries a `null` end. -/
def worstCaseEnd (ts : TimeScale) (getTextWidth : String → ℤ)
    (eventToFit : TimeEvent) (b : Time) : Option Time :=
  if eventToFit.kind == some instantKind then
    some (endOfText ts getTextWidth eventToFit b)
  else if eventToFit.hasNoEnd then some ts.domainEnd
  else (eventToFit.«end»).map (fun en => max en (endOfText ts getTextWidth eventToFit b))

/-- `calculateEventTopPosition` (timeline.ts lines 192-245): compute the
occupied interval `[begin, worstCaseEnd]`, ensure the series has a row list,
place the interval first-fit (appending a new row when nothing fits), and
return the updated state together with the vertical offset
`EVENT_VERTICAL_MARGIN + level * EVENT_HEIGHT_PLUS_MARGIN`.
`none` models the exception thrown on a `null` begin
(`begin.toDate()`), or the invalid moment from a closed event with no end. -/
def calculateEventTopPosition (ts : TimeScale) (getTextWidth : String → ℤ)
    (st : SlotsBySeries) (eventToFit : TimeEvent) :
    Option (SlotsBySeries × ℚ) :=
  match eventToFit.begin with
  | none => none
  | some b =>
    match worstCaseEnd ts getTextWidth eventToFit b with
    | none => none
    | some wce =>
      let newInterval : Interval := (b, wce)
      let st1 := if mapHas st eventToFit.series then st
                 else mapSet st eventToFit.series []
      let allocatedSlots := (mapGet st1 eventToFit.series).getD []
      let placed := placeEventLevel newInterval allocatedSlots
      some (mapSet st1 eventToFit.series placed.1,
            EVENT_VERTICAL_MARGIN + (placed.2 : ℚ) * EVENT_HEIGHT_PLUS_MARGIN)

/-- One layout pass: apply `calculateEventTopPosition` to each bound event
in input order, threading the packing state, collecting the vertical
offsets. -/
def layoutPass (ts : TimeScale) (getTextWidth : String → ℤ) :
    List TimeEvent → SlotsBySeries → Option (SlotsBySeries × List ℚ)
  | [], st => some (st, [])
  | e :: es, st =>
    match calculateEventTopPosition ts getTextWidth st e with
    | none => none
    | some (st1, y) =>
      match layoutPass ts getTextWidth es st1 with
      | none => none
      | some (st2, ys) => some (st2, y :: ys)

/-- The layout portion of `redraw` (timeline.ts lines 329-345):
`allocatedSlotsBySeries = d3.map()` resets the packing state to a fresh
empty map — the prior pass's state `prior` is discarded — and every bound
event is laid out again in input order. -/
def redrawLayout (ts : TimeScale) (getTextWidth : String → ℤ)
    (events : List TimeEvent) (_prior : SlotsBySeries) :
    Option (SlotsBySeries × List ℚ) :=
  let allocatedSlotsBySeries : SlotsBySeries := []
  layoutPass ts getTextWidth events allocatedSlotsBySeries

/-- `moment.max` over a JS array whose elements may be null/invalid moments:
`none` when the array is empty or any element is invalid.  (The claims only
ever use this on non-empty arrays of valid moments, where it is the
maximum.) -/
def momentMax : List (Option Time) → Option Time
  | [] => none
  | [x] => x
  | x :: xs =>
    match x, momentMax xs with
    | some a, some b => some (max a b)
    | _, _ => none

/-- `getTimelineDomain` (timeline.ts lines 141-167): the latest moment over
all series — instants and open-ended events contribute `moment()` (now),
closed events contribute their end — plus
`CHART_LATERAL_PADDING_IN_YEARS` years of slack; the earliest moment is a
fixed 300-year window back from that. -/
def getTimelineDomain (now : Time)
    (eventsBySeries : List (String × List TimeEvent)) : Option (Time × Time) :=
  let latestMoment := momentMax (eventsBySeries.map (fun events =>
    momentMax (events.2.map (fun event =>
      if event.kind == some instantKind || event.hasNoEnd then some now
      else event.«end»))))
  match latestMoment with
  | none => none
  | some latest =>
    let latest1 := addYears latest CHART_LATERAL_PADDING_IN_YEARS
    let earliestMoment := addYears latest1 (-300)
    some (earliestMoment, latest1)

/-! ### Lemmas about the d3.map model -/

theorem mapHas_false_get (m : SlotsBySeries) (k : String)
    (h : mapHas m k = false) : mapGet m k = none := by
  induction m with
  | nil => simp [mapGet]
  | cons p t ih =>
    simp only [mapHas, List.any_cons, Bool.or_eq_false_iff] at h
    simp only [mapGet, List.find?_cons, h.1]
    exact ih h.2

theorem find?_eq_none_of_not_has (t : SlotsBySeries) (k : String)
    (h : mapHas t k = false) : t.find? (fun p => p.1 == k) = none := by
  rw [List.find?_eq_none]
  intro p hp hc
  have : mapHas t k = true := List.any_eq_true.mpr ⟨p, hp, hc⟩
  rw [h] at this
  cases this

theorem find?_replace_self (t : SlotsBySeries) (k : String) (v : List Row)
    (h : mapHas t k = true) :
    (t.map (fun p => if p.1 == k then (k, v) else p)).find? (fun p => p.1 == k)
      = some (k, v) := by
  induction t with
  | nil => simp [mapHas] at h
  | cons p t ih =>
    simp only [mapHas, List.any_cons, Bool.or_eq_true] at h
    by_cases hp : p.1 == k
    · simp [hp, List.find?]
    · have hp' : (p.1 == k) = false := by simpa using hp
      have ht : mapHas t k = true := by
        rcases h with h | h
        · exact absurd h hp
        · exact h
      simp only [List.map_cons, hp', Bool.false_eq_true, if_false,
        List.find?, hp']
      exact ih ht

theorem find?_append_self (t : SlotsBySeries) (k : String) (v : List Row)
    (h : mapHas t k = false) :
    (t ++ [(k, v)]).find? (fun p => p.1 == k) = some (k, v) := by
  rw [List.find?_append, find?_eq_none_of_not_has t k h]
  simp

theorem find?_replace_ne (t : SlotsBySeries) (k k' : String) (v : List Row)
    (hne : k' ≠ k) :
    (t.map (fun p => if p.1 == k then (k, v) else p)).find? (fun p => p.1 == k')
      = t.find? (fun p => p.1 == k') := by
  have hkk : (k == k') = false := beq_eq_false_iff_ne.mpr (fun hc => hne hc.symm)
  induction t with
  | nil => simp
  | cons p t ih =>
    by_cases hp : p.1 == k
    · have hpk : p.1 = k := by simpa [beq_iff_eq] using hp
      have hp' : (p.1 == k') = false := by rw [hpk]; exact hkk
      simp only [List.map_cons, hp, if_true, List.find?, hkk, hp']
      exact ih
    · have hp' : (p.1 == k) = false := by simpa using hp
      by_cases hq : p.1 == k'
      · have hq' : (p.1 == k') = true := hq
        simp [List.find?, hp', hq']
      · have hq' : (p.1 == k') = false := by simpa using hq
        simp only [List.map_cons, hp', Bool.false_eq_true, if_false,
          List.find?, hq']
        exact ih

theorem find?_append_ne (t : SlotsBySeries) (k k' : String) (v : List Row)
    (hne : k' ≠ k) :
    (t ++ [(k, v)]).find? (fun p => p.1 == k') = t.find? (fun p => p.1 == k') := by
  have hkk : (k == k') = false := beq_eq_false_iff_ne.mpr (fun hc => hne hc.symm)
  rw [List.find?_append]
  have hone : List.find? (fun p => p.1 == k') [(k, v)] = none := by
    simp [hkk]
  rw [hone]
  cases t.find? (fun p => p.1 == k') <;> rfl

theorem mapGet_set_self (m : SlotsBySeries) (k : String) (v : List Row) :
    mapGet (mapSet m k v) k = some v := by
  unfold mapSet mapGet
  by_cases h : mapHas m k
  · rw [if_pos h, find?_replace_self m k v h]
    rfl
  · rw [if_neg h, find?_append_self m k v (by simpa using h)]
    rfl

theorem mapGet_set_ne (m : SlotsBySeries) (k k' : String) (v : List Row)
    (hne : k' ≠ k) : mapGet (mapSet m k v) k' = mapGet m k' := by
  unfold mapSet mapGet
  by_cases h : mapHas m k
  · rw [if_pos h, find?_replace_ne m k k' v hne]
  · rw [if_neg h, find?_append_ne m k k' v hne]

theorem seriesRows_set_self (m : SlotsBySeries) (k : String) (v : List Row) :
    seriesRows (mapSet m k v) k = v := by
  simp [seriesRows, mapGet_set_self]

theorem seriesRows_set_ne (m : SlotsBySeries) (k k' : String) (v : List Row)
    (hne : k' ≠ k) : seriesRows (mapSet m k v) k' = seriesRows m k' := by
  simp [seriesRows, mapGet_set_ne m k k' v hne]

theorem seriesRows_guard (st : SlotsBySeries) (s : String) :
    seriesRows (if mapHas st s then st else mapSet st s []) s
      = seriesRows st s := by
  by_cases h : mapHas st s
  · rw [if_pos h]
  · rw [if_neg h, seriesRows_set_self]
    unfold seriesRows
    rw [mapHas_false_get st s (by simpa using h)]
    rfl

theorem seriesRows_guard_ne (st : SlotsBySeries) (s s' : String)
    (hne : s' ≠ s) :
    seriesRows (if mapHas st s then st else mapSet st s []) s'
      = seriesRows st s' := by
  by_cases h : mapHas st s
  · simp [h]
  · simp [h, seriesRows_set_ne st s s' [] hne]

theorem seriesRows_nil (s : String) : seriesRows [] s = [] := rfl

/-! ### Lemmas about the first-fit placement -/

theorem placeInRows_eq_none_of (ni : Interval) (rows : List Row)
    (h : ∀ row ∈ rows, fitsInRow ni row = false) :
    placeInRows ni rows = none := by
  induction rows with
  | nil => rfl
  | cons row rest ih =>
    have h0 := h row (List.mem_cons_self row rest)
    simp only [placeInRows, h0, Bool.false_eq_true, if_false]
    rw [ih (fun r hr => h r (List.mem_cons_of_mem row hr))]

theorem of_placeInRows_eq_none (ni : Interval) (rows : List Row)
    (h : placeInRows ni rows = none) :
    ∀ row ∈ rows, fitsInRow ni row = false := by
  induction rows with
  | nil => intro row hr; cases hr
  | cons row rest ih =>
    intro r hr
    by_cases hf : fitsInRow ni row
    · simp [placeInRows, hf] at h
    · cases hrec : placeInRows ni rest with
      | some p => simp [placeInRows, hf, hrec] at h
      | none =>
        rcases List.mem_cons.mp hr with rfl | hmem
        · simpa using hf
        · exact ih hrec r hmem

theorem placeInRows_spec (ni : Interval) :
    ∀ (rows rows' : List Row) (k : ℕ),
    placeInRows ni rows = some (rows', k) →
    ∃ rk, rows[k]? = some rk ∧ fitsInRow ni rk = true ∧
      (∀ j rj, j < k → rows[j]? = some rj → fitsInRow ni rj = false) ∧
      rows' = rows.set k (rk ++ [ni]) := by
  intro rows
  induction rows with
  | nil => intro rows' k h; simp [placeInRows] at h
  | cons row rest ih =>
    intro rows' k h
    by_cases hf : fitsInRow ni row
    · simp only [placeInRows, hf, if_true, Option.some_inj] at h
      injection h with h1 h2
      subst h1
      subst h2
      refine ⟨row, by simp, hf, ?_, rfl⟩
      intro j rj hj _
      exact absurd hj (Nat.not_lt_zero j)
    · cases hrec : placeInRows ni rest with
      | none => simp [placeInRows, hf, hrec] at h
      | some p =>
        obtain ⟨rs, k0⟩ := p
        simp only [placeInRows, hf, Bool.false_eq_true, if_false, hrec,
          Option.some_inj] at h
        injection h with h1 h2
        subst h1
        subst h2
        obtain ⟨rk, hget, hfit, hprev, hset⟩ := ih rs k0 hrec
        refine ⟨rk, by simpa using hget, hfit, ?_, ?_⟩
        · intro j rj hj hgj
          cases j with
          | zero =>
            simp only [List.getElem?_cons_zero, Option.some_inj] at hgj
            subst hgj
            simpa using hf
          | succ j0 =>
            simp only [List.getElem?_cons_succ] at hgj
            exact hprev j0 rj (Nat.lt_of_succ_lt_succ hj) hgj
        · rw [hset]
          rfl

theorem placeEventLevel_cases (ni : Interval) (rows : List Row) :
    (∃ rk, rows[(placeEventLevel ni rows).2]? = some rk ∧
        fitsInRow ni rk = true ∧
        (∀ j rj, j < (placeEventLevel ni rows).2 → rows[j]? = some rj →
          fitsInRow ni rj = false) ∧
        (placeEventLevel ni rows).1
          = rows.set (placeEventLevel ni rows).2 (rk ++ [ni]))
    ∨ ((placeEventLevel ni rows).2 = rows.length ∧
        (∀ row ∈ rows, fitsInRow ni row = false) ∧
        (placeEventLevel ni rows).1 = rows ++ [[ni]]) := by
  unfold placeEventLevel
  cases hrec : placeInRows ni rows with
  | none =>
    right
    exact ⟨rfl, of_placeInRows_eq_none ni rows hrec, rfl⟩
  | some p =>
    left
    obtain ⟨rs, k⟩ := p
    obtain ⟨rk, hget, hfit, hprev, hset⟩ := placeInRows_spec ni rows rs k hrec
    exact ⟨rk, hget, hfit, hprev, hset⟩

/-! ### The no-overlap invariant -/

/-- Specification relation (spec §8): the occupied intervals of two items
must not overlap — one's worstCaseEnd is strictly before the other's begin,
or its begin is strictly after the other's worstCaseEnd. -/
def intervalsDisjoint (a b : Interval) : Prop := a.2 < b.1 ∨ b.2 < a.1

/-- Spec invariant: every allocated row of every series holds pairwise
non-overlapping intervals. -/
def SlotsInvariant (st : SlotsBySeries) : Prop :=
  ∀ s : String, ∀ row ∈ seriesRows st s, row.Pairwise intervalsDisjoint

theorem fitsInRow_disjoint (ni : Interval) (row : Row)
    (h : fitsInRow ni row = true) :
    ∀ iv ∈ row, intervalsDisjoint iv ni := by
  intro iv hiv
  have hfit := List.all_eq_true.mp h iv hiv
  simp only [intervalFitsBeside, Bool.or_eq_true, decide_eq_true_eq] at hfit
  rcases hfit with h1 | h2
  · exact Or.inr h1
  · exact Or.inl h2

theorem row_append_pairwise (row : Row) (ni : Interval)
    (hp : row.Pairwise intervalsDisjoint)
    (h : fitsInRow ni row = true) :
    (row ++ [ni]).Pairwise intervalsDisjoint := by
  rw [List.pairwise_append]
  refine ⟨hp, List.pairwise_singleton _ _, ?_⟩
  intro a ha b hb
  rw [List.mem_singleton] at hb
  subst hb
  exact fitsInRow_disjoint _ row h a ha

theorem placeEventLevel_rows_pairwise (ni : Interval) (rows : List Row)
    (h : ∀ row ∈ rows, row.Pairwise intervalsDisjoint) :
    ∀ row ∈ (placeEventLevel ni rows).1, row.Pairwise intervalsDisjoint := by
  rcases placeEventLevel_cases ni rows with
    ⟨rk, hget, hfit, _, hset⟩ | ⟨_, _, hset⟩
  · rw [hset]
    intro row hrow
    rcases List.mem_or_eq_of_mem_set hrow with hmem | rfl
    · exact h row hmem
    · have hrkmem : rk ∈ rows := by
        obtain ⟨hlt, hEq⟩ := List.getElem?_eq_some.mp hget
        exact hEq ▸ List.getElem_mem hlt
      exact row_append_pairwise rk ni (h rk hrkmem) hfit
  · rw [hset]
    intro row hrow
    rcases List.mem_append.mp hrow with hmem | hmem
    · exact h row hmem
    · rw [List.mem_singleton] at hmem
      subst hmem
      exact List.pairwise_singleton _ _

/-! ### Inversion of one placement step -/

theorem calculateEventTopPosition_some (ts : TimeScale) (gtw : String → ℤ)
    (st : SlotsBySeries) (e : TimeEvent) (st' : SlotsBySeries) (y : ℚ)
    (h : calculateEventTopPosition ts gtw st e = some (st', y)) :
    ∃ b wce,
      e.begin = some b ∧ worstCaseEnd ts gtw e b = some wce ∧
      st' = mapSet (if mapHas st e.series then st else mapSet st e.series [])
              e.series (placeEventLevel (b, wce) (seriesRows st e.series)).1 ∧
      y = EVENT_VERTICAL_MARGIN +
          ((placeEventLevel (b, wce) (seriesRows st e.series)).2 : ℚ) *
            EVENT_HEIGHT_PLUS_MARGIN := by
  unfold calculateEventTopPosition at h
  split at h
  next hb => cases h
  next b hb =>
    split at h
    next hw => cases h
    next wce hw =>
      simp only [Option.some.injEq, Prod.mk.injEq] at h
      have hrows : (mapGet (if mapHas st e.series then st
            else mapSet st e.series []) e.series).getD []
          = seriesRows st e.series := seriesRows_guard st e.series
      rw [hrows] at h
      exact ⟨b, wce, hb, hw, h.1.symm, h.2.symm⟩

theorem calc_seriesRows_other (ts : TimeScale) (gtw : String → ℤ)
    (st : SlotsBySeries) (e : TimeEvent) (st' : SlotsBySeries) (y : ℚ)
    (h : calculateEventTopPosition ts gtw st e = some (st', y)) :
    ∀ s, s ≠ e.series → seriesRows st' s = seriesRows st s := by
  obtain ⟨b, wce, _, _, hst, _⟩ :=
    calculateEventTopPosition_some ts gtw st e st' y h
  intro s hs
  rw [hst, seriesRows_set_ne _ _ _ _ hs, seriesRows_guard_ne st e.series s hs]

theorem calc_preserves_invariant (ts : TimeScale) (gtw : String → ℤ)
    (st : SlotsBySeries) (e : TimeEvent) (st' : SlotsBySeries) (y : ℚ)
    (h : calculateEventTopPosition ts gtw st e = some (st', y))
    (hinv : SlotsInvariant st) : SlotsInvariant st' := by
  obtain ⟨b, wce, hb, hw, hst, _⟩ :=
    calculateEventTopPosition_some ts gtw st e st' y h
  intro s row hrow
  by_cases hs : s = e.series
  · rw [hst, hs, seriesRows_set_self] at hrow
    exact placeEventLevel_rows_pairwise (b, wce) (seriesRows st e.series)
      (hinv e.series) row hrow
  · rw [calc_seriesRows_other ts gtw st e st' y h s hs] at hrow
    exact hinv s row hrow

theorem layoutPass_preserves_invariant (ts : TimeScale) (gtw : String → ℤ) :
    ∀ (es : List TimeEvent) (st st' : SlotsBySeries) (ys : List ℚ),
    layoutPass ts gtw es st = some (st', ys) →
    SlotsInvariant st → SlotsInvariant st' := by
  intro es
  induction es with
  | nil =>
    intro st st' ys h hinv
    simp only [layoutPass, Option.some.injEq, Prod.mk.injEq] at h
    rw [← h.1]
    exact hinv
  | cons e es ih =>
    intro st st' ys h hinv
    unfold layoutPass at h
    split at h
    next hc => cases h
    next st1 y hc =>
      split at h
      next hrec => cases h
      next st2 ys2 hrec =>
        simp only [Option.some.injEq, Prod.mk.injEq] at h
        rw [← h.1]
        exact ih st1 st2 ys2 hrec
          (calc_preserves_invariant ts gtw st e st1 y hc hinv)

theorem SlotsInvariant_nil : SlotsInvariant [] := by
  intro s row hrow
  rw [seriesRows_nil] at hrow
  exact absurd hrow (List.not_mem_nil row)

/-! ### First-fit specification -/

/-- Spec predicate (from the spec's words): `level` is the first-fit row
index — every earlier row rejects the interval, the chosen row (when it is
an existing one) admits it, and `level` equals the row count exactly when
no existing row admits the interval. -/
def firstFitLevel (newInterval : Interval) (rows : List Row) (level : ℕ) : Prop :=
  level ≤ rows.length ∧
  (∀ j rj, j < level → rows[j]? = some rj →
    fitsInRow newInterval rj = false) ∧
  (∀ rl, rows[level]? = some rl → fitsInRow newInterval rl = true) ∧
  (level = rows.length ↔ ∀ row ∈ rows, fitsInRow newInterval row = false)

theorem mem_of_getElem? {l : List Row} {n : ℕ} {a : Row}
    (h : l[n]? = some a) : a ∈ l := by
  obtain ⟨hlt, hEq⟩ := List.getElem?_eq_some.mp h
  exact hEq ▸ List.getElem_mem hlt

theorem placeEventLevel_firstFit (ni : Interval) (rows : List Row) :
    firstFitLevel ni rows (placeEventLevel ni rows).2 := by
  rcases placeEventLevel_cases ni rows with
    ⟨rk, hget, hfit, hprev, _⟩ | ⟨hlen, hall, _⟩
  · have hlt : (placeEventLevel ni rows).2 < rows.length :=
      (List.getElem?_eq_some.mp hget).1
    refine ⟨le_of_lt hlt, hprev, ?_, ?_⟩
    · intro rl hrl
      rw [hget] at hrl
      injection hrl with h1
      rw [← h1]
      exact hfit
    · constructor
      · intro hEq
        exact absurd hEq (ne_of_lt hlt)
      · intro hallrows
        have hmem : rk ∈ rows := mem_of_getElem? hget
        rw [hallrows rk hmem] at hfit
        cases hfit
  · refine ⟨le_of_eq hlen, ?_, ?_, ⟨fun _ => hall, fun _ => hlen⟩⟩
    · intro j rj _ hgj
      exact hall rj (mem_of_getElem? hgj)
    · intro rl hrl
      rw [hlen, List.getElem?_eq_none (le_refl rows.length)] at hrl
      cases hrl

theorem placeEventLevel_length (ni : Interval) (rows : List Row) :
    (placeEventLevel ni rows).1.length = rows.length ∨
    (placeEventLevel ni rows).1.length = rows.length + 1 := by
  rcases placeEventLevel_cases ni rows with
    ⟨rk, _, _, _, hset⟩ | ⟨_, _, hset⟩
  · left
    rw [hset, List.length_set]
  · right
    rw [hset, List.length_append, List.length_singleton]

theorem placeEventLevel_length_succ (ni : Interval) (rows : List Row)
    (h : (placeEventLevel ni rows).1.length = rows.length + 1) :
    ∀ row ∈ rows, fitsInRow ni row = false := by
  rcases placeEventLevel_cases ni rows with
    ⟨rk, _, _, _, hset⟩ | ⟨_, hall, _⟩
  · rw [hset, List.length_set] at h
    omega
  · exact hall

/-! ### Concrete data for witnesses -/

/-- An identity pixel scale over a wide domain, for concrete runs. -/
def exScale : TimeScale :=
  { scale := fun t => t
    invert := fun p => p
    domainStart := 0
    domainEnd := 100000000000000 }

/-- A concrete text-measurement function: every label is ten pixels
wide. -/
def exGtw : String → ℤ := fun _ => 10

/-- A closed interval event in series X. -/
def evA : TimeEvent :=
  { id := 1, series := "X", kind := some intervalKind, title := "a"
    begin := some 0, «end» := some 1000000000000, hasNoEnd := false
    description := "", url := "" }

/-- A closed interval event in series X overlapping `evA`. -/
def evB : TimeEvent :=
  { id := 2, series := "X", kind := some intervalKind, title := "b"
    begin := some 500000000000, «end» := some 2000000000000, hasNoEnd := false
    description := "", url := "" }

/-- An instant event in series Y. -/
def evC : TimeEvent :=
  { id := 3, series := "Y", kind := some instantKind, title := "c"
    begin := some 0, «end» := none, hasNoEnd := true
    description := "", url := "" }

/-- An open-ended (no end) interval event in series Z. -/
def evD : TimeEvent :=
  { id := 4, series := "Z", kind := some intervalKind, title := "d"
    begin := some 0, «end» := none, hasNoEnd := true
    description := "", url := "" }

/-- A later closed interval event in series X that shares row 0 with
`evA`. -/
def evE : TimeEvent :=
  { id := 5, series := "X", kind := some intervalKind, title := "e"
    begin := some 3000000000000, «end» := some 4000000000000
    hasNoEnd := false, description := "", url := "" }

/-- A concrete input list: two overlapping items in series X, a third item
sharing a row with the first, one instant in series Y. -/
def exEvents : List TimeEvent := [evA, evB, evE, evC]

/-- The result of one concrete layout pass from the empty state. -/
def exResult : Option (SlotsBySeries × List ℚ) :=
  layoutPass exScale exGtw exEvents []

/-- The final packing state of the concrete layout pass. -/
def exStF : SlotsBySeries := (exResult.getD ([], [])).1

/-- The vertical offsets of the concrete layout pass. -/
def exYs : List ℚ := (exResult.getD ([], [])).2

/-- The result of placing only `evA` into the empty state. -/
def exCalcA : Option (SlotsBySeries × ℚ) :=
  calculateEventTopPosition exScale exGtw [] evA

/-- State after placing `evA` into the empty state. -/
def exStA : SlotsBySeries := (exCalcA.getD ([], 0)).1

/-- Vertical offset of `evA` placed into the empty state. -/
def exYA : ℚ := (exCalcA.getD ([], 0)).2

/-! ### Claim theorems -/

/-- C1: for every layout pass over the items in input order starting from
the freshly reset packing state, after all items are placed, any two items
of the same series assigned the same row have non-overlapping occupied
`[begin, worstCaseEnd]` intervals: one ends strictly before the other
begins, or begins strictly after the other ends. -/
theorem c1_no_overlap_invariant (ts : TimeScale) (gtw : String → ℤ)
    (events : List TimeEvent) (stF : SlotsBySeries) (ys : List ℚ)
    (h : layoutPass ts gtw events [] = some (stF, ys)) :
    ∀ s : String, ∀ row ∈ seriesRows stF s, row.Pairwise intervalsDisjoint :=
  layoutPass_preserves_invariant ts gtw events [] stF ys h SlotsInvariant_nil

theorem c1_no_overlap_invariant_witness :
    ([((0 : ℤ), (1000000000000 : ℤ)),
      ((3000000000000 : ℤ), (4000000000000 : ℤ))] : Row).Pairwise
      intervalsDisjoint :=
  c1_no_overlap_invariant exScale exGtw exEvents exStF exYs rfl "X"
    [((0 : ℤ), (1000000000000 : ℤ)),
     ((3000000000000 : ℤ), (4000000000000 : ℤ))]
    (by decide)

/-- C2: the row assigned by the packing engine is the first-fit one — the
smallest index among existing rows of the item's series admitting its
`[begin, worstCaseEnd]` interval — and a new row is appended, with the item
placed in it, exactly when the interval fits in no existing row. -/
theorem c2_first_fit (ts : TimeScale) (gtw : String → ℤ)
    (st : SlotsBySeries) (e : TimeEvent) (st' : SlotsBySeries) (y : ℚ)
    (h : calculateEventTopPosition ts gtw st e = some (st', y)) :
    ∃ (b wce : Time) (level : ℕ),
      e.begin = some b ∧ worstCaseEnd ts gtw e b = some wce ∧
      y = EVENT_VERTICAL_MARGIN + (level : ℚ) * EVENT_HEIGHT_PLUS_MARGIN ∧
      firstFitLevel (b, wce) (seriesRows st e.series) level ∧
      (level = (seriesRows st e.series).length →
        seriesRows st' e.series = seriesRows st e.series ++ [[(b, wce)]]) := by
  obtain ⟨b, wce, hb, hw, hst, hy⟩ :=
    calculateEventTopPosition_some ts gtw st e st' y h
  refine ⟨b, wce, (placeEventLevel (b, wce) (seriesRows st e.series)).2,
    hb, hw, hy, placeEventLevel_firstFit _ _, ?_⟩
  intro hlen
  rw [hst, seriesRows_set_self]
  rcases placeEventLevel_cases (b, wce) (seriesRows st e.series) with
    ⟨rk, hget, _, _, _⟩ | ⟨_, _, hsh⟩
  · rw [hlen, List.getElem?_eq_none (le_refl _)] at hget
    cases hget
  · exact hsh

theorem c2_first_fit_witness :
    firstFitLevel ((0 : ℤ), (1000000000000 : ℤ))
      (seriesRows ([] : SlotsBySeries) evA.series) 0 ∧
    exYA = EVENT_VERTICAL_MARGIN + ((0 : ℕ) : ℚ) * EVENT_HEIGHT_PLUS_MARGIN ∧
    seriesRows exStA evA.series
      = seriesRows ([] : SlotsBySeries) evA.series
          ++ [[((0 : ℤ), (1000000000000 : ℤ))]] := by
  obtain ⟨b, wce, level, hb, hw, hy, hff, hnew⟩ :=
    c2_first_fit exScale exGtw [] evA exStA exYA rfl
  have hb0 : b = 0 := by
    rw [show evA.begin = some (0 : ℤ) from rfl] at hb
    exact (Option.some_inj.mp hb).symm
  subst hb0
  have hw0 : wce = 1000000000000 := by
    rw [show worstCaseEnd exScale exGtw evA 0
        = some ((1000000000000 : ℤ)) from rfl] at hw
    exact (Option.some_inj.mp hw).symm
  subst hw0
  have hl0 : level = 0 := by
    have h1 := hff.1
    rw [show seriesRows ([] : SlotsBySeries) evA.series = [] from rfl] at h1
    simpa using h1
  subst hl0
  exact ⟨hff, hy, hnew rfl⟩

/-- C4 counterexample: the claim says intervals that merely touch at an
equal endpoint count as non-overlapping and may share a row; in the code, a
new interval beginning exactly where an existing one ends fails both strict
comparisons of the fit test, so it does NOT fit alongside it. -/
theorem c4_touching_counterexample :
    intervalFitsBeside (5, 10) (0, 5) = false ∧
    fitsInRow (5, 10) [(0, 5)] = false := by
  decide

/-- C4 amended: the fit test is exactly the strict disjunction — the item
fits beside an existing interval iff its end is strictly before the
existing begin or its begin is strictly after the existing end — but
intervals touching at an equal endpoint count as OVERLAPPING and may not
share a row. -/
theorem c4_fit_test_strict (ni iv : Interval) (a b c : Time)
    (hab : a ≤ b) (hbc : b ≤ c) :
    (intervalFitsBeside ni iv = true ↔ (ni.2 < iv.1 ∨ ni.1 > iv.2)) ∧
    intervalFitsBeside (b, c) (a, b) = false ∧
    intervalFitsBeside (a, b) (b, c) = false := by
  refine ⟨?_, ?_, ?_⟩
  · simp [intervalFitsBeside]
  · simp only [intervalFitsBeside, Bool.or_eq_false_iff,
      decide_eq_false_iff_not, not_lt]
    exact ⟨le_trans hab hbc, le_refl b⟩
  · simp only [intervalFitsBeside, Bool.or_eq_false_iff,
      decide_eq_false_iff_not, not_lt]
    exact ⟨le_refl b, le_trans hab hbc⟩

theorem c4_fit_test_strict_witness :
    ((intervalFitsBeside (0, 1) (2, 3) = true ↔
        ((0 : ℤ), (1 : ℤ)).2 < ((2 : ℤ), (3 : ℤ)).1 ∨
        ((0 : ℤ), (1 : ℤ)).1 > ((2 : ℤ), (3 : ℤ)).2) ∧
      intervalFitsBeside (5, 10) (0, 5) = false ∧
      intervalFitsBeside (0, 5) (5, 10) = false) :=
  c4_fit_test_strict (0, 1) (2, 3) 0 5 10 (by norm_num) (by norm_num)

/-- C5: two layout passes over the same item list in the same input order
with the same scale and text measurement produce identical results: redraw
resets the packing state to empty, so the outcome is independent of any
prior pass's state and equals the pass from the empty state. -/
theorem c5_redraw_deterministic (ts : TimeScale) (gtw : String → ℤ)
    (events : List TimeEvent) (prior1 prior2 : SlotsBySeries) :
    redrawLayout ts gtw events prior1 = redrawLayout ts gtw events prior2 ∧
    redrawLayout ts gtw events prior1 = layoutPass ts gtw events [] :=
  ⟨rfl, rfl⟩

theorem layoutPass_rowCount_le (ts : TimeScale) (gtw : String → ℤ) :
    ∀ (es : List TimeEvent) (st st' : SlotsBySeries) (ys : List ℚ),
    layoutPass ts gtw es st = some (st', ys) →
    ∀ s, (seriesRows st' s).length ≤
      (seriesRows st s).length + (es.filter (fun e => e.series == s)).length := by
  intro es
  induction es with
  | nil =>
    intro st st' ys h s
    simp only [layoutPass, Option.some.injEq, Prod.mk.injEq] at h
    rw [← h.1]
    simp
  | cons e es ih =>
    intro st st' ys h s
    unfold layoutPass at h
    split at h
    next hc => cases h
    next st1 y hc =>
      split at h
      next hrec => cases h
      next st2 ys2 hrec =>
        simp only [Option.some.injEq, Prod.mk.injEq] at h
        rw [← h.1]
        have hrec2 := ih st1 st2 ys2 hrec s
        by_cases hbs : e.series = s
        · have hstep : (seriesRows st1 s).length ≤
              (seriesRows st s).length + 1 := by
            obtain ⟨b, wce, _, _, hst1, _⟩ :=
              calculateEventTopPosition_some ts gtw st e st1 y hc
            rw [hst1, ← hbs, seriesRows_set_self]
            rcases placeEventLevel_length (b, wce) (seriesRows st e.series)
              with hl | hl
            · rw [hl, hbs]
              omega
            · rw [hl, hbs]
          have hfl : ((e :: es).filter (fun e => e.series == s)).length
              = (es.filter (fun e => e.series == s)).length + 1 := by
            simp [List.filter_cons, hbs]
          omega
        · have hstep : seriesRows st1 s = seriesRows st s :=
            calc_seriesRows_other ts gtw st e st1 y hc s
              (fun hEq => hbs hEq.symm)
          have hfl : ((e :: es).filter (fun e => e.series == s)).length
              = (es.filter (fun e => e.series == s)).length := by
            simp [List.filter_cons, hbs]
          rw [hstep] at hrec2
          omega

/-- C7: throughout a layout pass from the reset state, a series' row count
never exceeds the number of that series' items placed so far; and a single
placement changes the row count by zero or one, growing only when the new
item's occupied interval fits in no existing row of its series. -/
theorem c7_monotonic_row_growth (ts : TimeScale) (gtw : String → ℤ) :
    (∀ (es : List TimeEvent) (stF : SlotsBySeries) (ys : List ℚ),
      layoutPass ts gtw es [] = some (stF, ys) →
      ∀ s, (seriesRows stF s).length ≤
        (es.filter (fun e => e.series == s)).length) ∧
    (∀ (st : SlotsBySeries) (e : TimeEvent) (st' : SlotsBySeries) (y : ℚ),
      calculateEventTopPosition ts gtw st e = some (st', y) →
      ((seriesRows st' e.series).length = (seriesRows st e.series).length ∨
       (seriesRows st' e.series).length
         = (seriesRows st e.series).length + 1) ∧
      ((seriesRows st' e.series).length
          = (seriesRows st e.series).length + 1 →
        ∃ b wce, e.begin = some b ∧ worstCaseEnd ts gtw e b = some wce ∧
          ∀ row ∈ seriesRows st e.series,
            fitsInRow (b, wce) row = false)) := by
  constructor
  · intro es stF ys h s
    have hle := layoutPass_rowCount_le ts gtw es [] stF ys h s
    simpa [seriesRows_nil] using hle
  · intro st e st' y h
    obtain ⟨b, wce, hb, hw, hst, _⟩ :=
      calculateEventTopPosition_some ts gtw st e st' y h
    have hself : seriesRows st' e.series
        = (placeEventLevel (b, wce) (seriesRows st e.series)).1 := by
      rw [hst, seriesRows_set_self]
    constructor
    · rw [hself]
      exact placeEventLevel_length _ _
    · intro hsucc
      rw [hself] at hsucc
      exact ⟨b, wce, hb, hw, placeEventLevel_length_succ _ _ hsucc⟩

theorem c7_monotonic_row_growth_witness :
    (seriesRows exStF "X").length ≤ 3 ∧
    (seriesRows exStA evA.series).length
      = (seriesRows ([] : SlotsBySeries) evA.series).length + 1 ∧
    worstCaseEnd exScale exGtw evA 0 = some (1000000000000 : ℤ) := by
  have h1 := (c7_monotonic_row_growth exScale exGtw).1 exEvents exStF exYs
    rfl "X"
  have h2 := (c7_monotonic_row_growth exScale exGtw).2 [] evA exStA exYA rfl
  refine ⟨le_of_le_of_eq h1 (by rfl), ?_, ?_⟩
  · rcases h2.1 with hd | hd
    · exact absurd hd (by decide)
    · exact hd
  · obtain ⟨b, wce, hb, hw, _⟩ := h2.2 (by decide)
    have hb0 : b = 0 := by
      rw [show evA.begin = some (0 : ℤ) from rfl] at hb
      exact (Option.some_inj.mp hb).symm
    subst hb0
    have hw0 : wce = 1000000000000 := by
      rw [show worstCaseEnd exScale exGtw evA 0
          = some ((1000000000000 : ℤ)) from rfl] at hw
      exact (Option.some_inj.mp hw).symm
    subst hw0
    exact hw

/-- C10: one placement call appends exactly one interval — the item's
`[begin, worstCaseEnd]` — to exactly one row of its series (the first
fitting row, or one newly appended row), leaves every other series and
every previously stored interval unchanged, and returns
`EVENT_VERTICAL_MARGIN + level * EVENT_HEIGHT_PLUS_MARGIN` for the chosen
row index `level`; the first item of a previously unseen series lands in
row 0. -/
theorem c10_frame_effect (ts : TimeScale) (gtw : String → ℤ)
    (st : SlotsBySeries) (e : TimeEvent) (st' : SlotsBySeries) (y : ℚ)
    (h : calculateEventTopPosition ts gtw st e = some (st', y)) :
    ∃ (b wce : Time) (level : ℕ),
      e.begin = some b ∧ worstCaseEnd ts gtw e b = some wce ∧
      y = EVENT_VERTICAL_MARGIN + (level : ℚ) * EVENT_HEIGHT_PLUS_MARGIN ∧
      (∀ s, s ≠ e.series → seriesRows st' s = seriesRows st s) ∧
      ((∃ rk, (seriesRows st e.series)[level]? = some rk ∧
          seriesRows st' e.series
            = (seriesRows st e.series).set level (rk ++ [(b, wce)]))
       ∨ (level = (seriesRows st e.series).length ∧
          seriesRows st' e.series
            = seriesRows st e.series ++ [[(b, wce)]])) ∧
      (seriesRows st e.series = [] → level = 0) := by
  obtain ⟨b, wce, hb, hw, hst, hy⟩ :=
    calculateEventTopPosition_some ts gtw st e st' y h
  have hself : seriesRows st' e.series
      = (placeEventLevel (b, wce) (seriesRows st e.series)).1 := by
    rw [hst, seriesRows_set_self]
  refine ⟨b, wce, (placeEventLevel (b, wce) (seriesRows st e.series)).2,
    hb, hw, hy, calc_seriesRows_other ts gtw st e st' y h, ?_, ?_⟩
  · rcases placeEventLevel_cases (b, wce) (seriesRows st e.series) with
      ⟨rk, hget, _, _, hset⟩ | ⟨hlen, _, hset⟩
    · left
      exact ⟨rk, hget, by rw [hself, hset]⟩
    · right
      exact ⟨hlen, by rw [hself, hset]⟩
  · intro hEmpty
    rcases placeEventLevel_cases (b, wce) (seriesRows st e.series) with
      ⟨rk, hget, _, _, _⟩ | ⟨hlen, _, _⟩
    · rw [hEmpty] at hget
      cases hget
    · rw [hlen, hEmpty]
      rfl

theorem c10_frame_effect_witness :
    exYA = EVENT_VERTICAL_MARGIN + ((0 : ℕ) : ℚ) * EVENT_HEIGHT_PLUS_MARGIN ∧
    seriesRows exStA evC.series = seriesRows ([] : SlotsBySeries) evC.series ∧
    seriesRows exStA evA.series
      = seriesRows ([] : SlotsBySeries) evA.series
          ++ [[((0 : ℤ), (1000000000000 : ℤ))]] := by
  obtain ⟨b, wce, level, hb, hw, hy, hframe, hshape, hempty⟩ :=
    c10_frame_effect exScale exGtw [] evA exStA exYA rfl
  have hb0 : b = 0 := by
    rw [show evA.begin = some (0 : ℤ) from rfl] at hb
    exact (Option.some_inj.mp hb).symm
  subst hb0
  have hw0 : wce = 1000000000000 := by
    rw [show worstCaseEnd exScale exGtw evA 0
        = some ((1000000000000 : ℤ)) from rfl] at hw
    exact (Option.some_inj.mp hw).symm
  subst hw0
  have hl0 : level = 0 := hempty rfl
  subst hl0
  refine ⟨hy, hframe evC.series (by decide), ?_⟩
  rcases hshape with ⟨rk, hget, _⟩ | ⟨_, hsh⟩
  · rw [show seriesRows ([] : SlotsBySeries) evA.series = [] from rfl] at hget
    simp at hget
  · exact hsh

/-- C3: the occupied extent's right bound: textEndTime is the
scale-inverse of `scale(begin) + measured title width`, plus
`EVENT_RIGHT_MARGIN_IN_YEARS` years; an Instant occupies out to
textEndTime; an event with no end occupies out to the domain's right edge;
otherwise the bound is `max(end, textEndTime)`. -/
theorem c3_worst_case_end (ts : TimeScale) (gtw : String → ℤ)
    (e : TimeEvent) (b : Time) :
    (e.kind = some instantKind →
      worstCaseEnd ts gtw e b
        = some (addYears (ts.invert (ts.scale b + gtw e.title))
            EVENT_RIGHT_MARGIN_IN_YEARS)) ∧
    (e.kind ≠ some instantKind → e.hasNoEnd = true →
      worstCaseEnd ts gtw e b = some ts.domainEnd) ∧
    (∀ en, e.kind ≠ some instantKind → e.hasNoEnd = false →
      e.«end» = some en →
      worstCaseEnd ts gtw e b
        = some (max en (addYears (ts.invert (ts.scale b + gtw e.title))
            EVENT_RIGHT_MARGIN_IN_YEARS))) := by
  refine ⟨?_, ?_, ?_⟩
  · intro hk
    simp [worstCaseEnd, endOfText, hk]
  · intro hk hne
    have hk' : (e.kind == some instantKind) = false :=
      beq_eq_false_iff_ne.mpr hk
    simp [worstCaseEnd, hk', hne]
  · intro en hk hne hen
    have hk' : (e.kind == some instantKind) = false :=
      beq_eq_false_iff_ne.mpr hk
    simp [worstCaseEnd, endOfText, hk', hne, hen]

theorem c3_worst_case_end_witness :
    worstCaseEnd exScale exGtw evC 0
      = some (addYears (exScale.invert (exScale.scale 0 + exGtw evC.title))
          EVENT_RIGHT_MARGIN_IN_YEARS) ∧
    worstCaseEnd exScale exGtw evD 0 = some exScale.domainEnd ∧
    worstCaseEnd exScale exGtw evA 0
      = some (max 1000000000000
          (addYears (exScale.invert (exScale.scale 0 + exGtw evA.title))
            EVENT_RIGHT_MARGIN_IN_YEARS)) :=
  ⟨(c3_worst_case_end exScale exGtw evC 0).1 rfl,
   (c3_worst_case_end exScale exGtw evD 0).2.1 (by decide) rfl,
   (c3_worst_case_end exScale exGtw evA 0).2.2 1000000000000
     (by decide) rfl rfl⟩

/-! ### Domain inference (C6) -/

/-- Spec function (§4.1): the upper-bound contribution of one event to the
domain — "now" for instants and open-ended items, the end time for closed
items. -/
def eventUpperBound (now : Time) (e : TimeEvent) : Time :=
  if e.kind == some instantKind || e.hasNoEnd then now else (e.«end»).getD now

theorem momentMax_map_some (l : List Time) (hne : l ≠ []) :
    ∃ m, momentMax (l.map some) = some m ∧ m ∈ l ∧ ∀ t ∈ l, t ≤ m := by
  induction l with
  | nil => exact absurd rfl hne
  | cons x xs ih =>
    cases xs with
    | nil =>
      refine ⟨x, rfl, List.mem_singleton_self x, ?_⟩
      intro t ht
      rw [List.mem_singleton] at ht
      exact le_of_eq ht
    | cons y ys =>
      obtain ⟨m, hm, hmem, hbd⟩ := ih (by simp)
      have hstep : momentMax ((x :: y :: ys).map some)
          = match some x, momentMax ((y :: ys).map some) with
            | some a, some b => some (max a b)
            | _, _ => none := rfl
      refine ⟨max x m, ?_, ?_, ?_⟩
      · rw [hstep, hm]
      · rcases max_choice x m with hmx | hmx
        · rw [hmx]
          exact List.mem_cons_self x (y :: ys)
        · rw [hmx]
          exact List.mem_cons_of_mem x hmem
      · intro t ht
        rcases List.mem_cons.mp ht with rfl | hmem2
        · exact le_max_left t m
        · exact le_trans (hbd t hmem2) (le_max_right x m)

theorem map_some_of_all_some (l : List (Option Time)) (d : Time)
    (h : ∀ x ∈ l, x.isSome = true) :
    l = (l.map (fun o => o.getD d)).map some := by
  induction l with
  | nil => rfl
  | cons x xs ih =>
    have hx := h x (List.mem_cons_self x xs)
    obtain ⟨v, hv⟩ := Option.isSome_iff_exists.mp hx
    rw [hv]
    simp only [List.map_cons, Option.getD_some, List.cons.injEq, true_and]
    exact ih (fun z hz => h z (List.mem_cons_of_mem x hz))

/-- C6: for a non-empty item set (every series group non-empty, closed
items carrying an end), domain inference yields
`domainEnd = latest contribution over ALL series combined, plus
CHART_LATERAL_PADDING_IN_YEARS years`, where instants and open-ended items
contribute "now" and closed items their end; and
`domainStart = domainEnd minus a fixed 300-year window`, not derived from
the earliest item's begin. -/
theorem c6_domain_inference (now : Time)
    (eventsBySeries : List (String × List TimeEvent))
    (hne : eventsBySeries ≠ [])
    (hgne : ∀ g ∈ eventsBySeries, g.2 ≠ [])
    (hends : ∀ g ∈ eventsBySeries, ∀ e ∈ g.2,
      (e.kind == some instantKind || e.hasNoEnd) = false →
      (e.«end»).isSome = true) :
    ∃ M,
      getTimelineDomain now eventsBySeries
        = some (addYears (addYears M CHART_LATERAL_PADDING_IN_YEARS) (-300),
                addYears M CHART_LATERAL_PADDING_IN_YEARS) ∧
      (∃ g ∈ eventsBySeries, ∃ e ∈ g.2, eventUpperBound now e = M) ∧
      (∀ g ∈ eventsBySeries, ∀ e ∈ g.2, eventUpperBound now e ≤ M) := by
  have hinner : ∀ g ∈ eventsBySeries,
      momentMax (g.2.map (fun event =>
        if event.kind == some instantKind || event.hasNoEnd then some now
        else event.«end»))
      = momentMax ((g.2.map (eventUpperBound now)).map some) := by
    intro g hg
    rw [List.map_map]
    congr 1
    apply List.map_congr_left
    intro e he
    by_cases hc : (e.kind == some instantKind || e.hasNoEnd) = true
    · simp [eventUpperBound, hc]
    · have hc' : (e.kind == some instantKind || e.hasNoEnd) = false := by
        simpa using hc
      obtain ⟨t, ht⟩ := Option.isSome_iff_exists.mp (hends g hg e he hc')
      simp [eventUpperBound, hc', ht, Function.comp]
  have hinner2 : ∀ g ∈ eventsBySeries,
      ∃ mg, momentMax (g.2.map (fun event =>
          if event.kind == some instantKind || event.hasNoEnd then some now
          else event.«end»)) = some mg ∧
        (∃ e ∈ g.2, eventUpperBound now e = mg) ∧
        (∀ e ∈ g.2, eventUpperBound now e ≤ mg) := by
    intro g hg
    obtain ⟨m, hm, hmem, hbd⟩ := momentMax_map_some (g.2.map (eventUpperBound now))
      (fun hnil => hgne g hg (List.map_eq_nil_iff.mp hnil))
    refine ⟨m, by rw [hinner g hg]; exact hm, ?_, ?_⟩
    · obtain ⟨e, he, hEq⟩ := List.mem_map.mp hmem
      exact ⟨e, he, hEq⟩
    · intro e he
      exact hbd (eventUpperBound now e) (List.mem_map_of_mem _ he)
  have houterall : ∀ x ∈ eventsBySeries.map (fun events =>
      momentMax (events.2.map (fun event =>
        if event.kind == some instantKind || event.hasNoEnd then some now
        else event.«end»))), x.isSome = true := by
    intro x hx
    obtain ⟨g, hg, hEq⟩ := List.mem_map.mp hx
    obtain ⟨mg, hmg, _, _⟩ := hinner2 g hg
    rw [← hEq, hmg]
    rfl
  have houter := map_some_of_all_some _ now houterall
  have hLne : (eventsBySeries.map (fun events =>
      momentMax (events.2.map (fun event =>
        if event.kind == some instantKind || event.hasNoEnd then some now
        else event.«end»)))).map (fun o => o.getD now) ≠ [] := by
    intro hnil
    exact hne (List.map_eq_nil_iff.mp (List.map_eq_nil_iff.mp hnil))
  obtain ⟨M, hM, hMmem, hMbd⟩ := momentMax_map_some _ hLne
  rw [← houter] at hM
  refine ⟨M, ?_, ?_, ?_⟩
  · have hrw : getTimelineDomain now eventsBySeries
        = match momentMax (eventsBySeries.map (fun events =>
            momentMax (events.2.map (fun event =>
              if event.kind == some instantKind || event.hasNoEnd
              then some now else event.«end»)))) with
          | none => none
          | some latest =>
            some (addYears (addYears latest CHART_LATERAL_PADDING_IN_YEARS)
                    (-300),
                  addYears latest CHART_LATERAL_PADDING_IN_YEARS) := rfl
    rw [hrw, hM]
  · obtain ⟨o, ho, hoEq⟩ := List.mem_map.mp hMmem
    obtain ⟨g, hg, hgEq⟩ := List.mem_map.mp ho
    obtain ⟨mg, hmg, hmgmem, _⟩ := hinner2 g hg
    rw [← hgEq, hmg] at hoEq
    obtain ⟨e, he, heEq⟩ := hmgmem
    exact ⟨g, hg, e, he, by rw [heEq, ← hoEq]; rfl⟩
  · intro g hg e he
    obtain ⟨mg, hmg, _, hmgbd⟩ := hinner2 g hg
    have hin : (mg : Time) ∈ (eventsBySeries.map (fun events =>
        momentMax (events.2.map (fun event =>
          if event.kind == some instantKind || event.hasNoEnd then some now
          else event.«end»)))).map (fun o => o.getD now) := by
      have hOin : momentMax (g.2.map (fun event =>
          if event.kind == some instantKind || event.hasNoEnd then some now
          else event.«end»)) ∈ eventsBySeries.map (fun events =>
            momentMax (events.2.map (fun event =>
              if event.kind == some instantKind || event.hasNoEnd
              then some now else event.«end»))) :=
        List.mem_map_of_mem _ hg
      have : (mg : Time) = (momentMax (g.2.map (fun event =>
          if event.kind == some instantKind || event.hasNoEnd then some now
          else event.«end»))).getD now := by
        rw [hmg]
        rfl
      rw [this]
      exact List.mem_map_of_mem _ hOin
    exact le_trans (hmgbd e he) (hMbd mg hin)

/-- Concrete grouped input for the domain-inference witness. -/
def exEbs : List (String × List TimeEvent) := [("X", [evA, evB]), ("Y", [evC])]

theorem c6_domain_inference_witness :
    getTimelineDomain 12345 exEbs
      = some (addYears (addYears 2000000000000 CHART_LATERAL_PADDING_IN_YEARS)
                (-300),
              addYears 2000000000000 CHART_LATERAL_PADDING_IN_YEARS) ∧
    eventUpperBound 12345 evB = 2000000000000 ∧
    eventUpperBound 12345 evA ≤ 2000000000000 := by
  obtain ⟨M, hdom, _, hbd⟩ :=
    c6_domain_inference 12345 exEbs (by decide) (by decide) (by decide)
  have hdom2 := hdom
  rw [show getTimelineDomain 12345 exEbs
      = some (addYears (addYears 2000000000000 CHART_LATERAL_PADDING_IN_YEARS)
                (-300),
              addYears 2000000000000 CHART_LATERAL_PADDING_IN_YEARS)
      from rfl] at hdom2
  simp only [Option.some.injEq, Prod.mk.injEq] at hdom2
  have hM : M = 2000000000000 := by
    have h2 := hdom2.2
    unfold addYears at h2
    linarith [h2]
  subst hM
  exact ⟨hdom, rfl, hbd ("X", [evA, evB]) (by decide) evA (by decide)⟩

/-! ### Parsing (C8) -/

/-- C8: parsing is total — it never throws: given the injected strict
moment parse (returning none for inputs matching none of the formats), the
empty string yields the absent value, a string the formats reject yields
the absent value, and any non-empty string yields exactly the parse result
(a valid time value when the input is well-formed); and every constructed
TimeEvent has `hasNoEnd` true exactly when its parsed end is absent. -/
theorem c8_parse_total (parse : String → Option Time) (s : String)
    (id : ℤ) (series kind title bgn fin description url : String) :
    strToMoment parse "" = none ∧
    (parse s = none → strToMoment parse s = none) ∧
    (0 < s.length → strToMoment parse s = parse s) ∧
    ((TimeEvent.make parse id series kind title bgn fin
        description url).hasNoEnd = true ↔
      (TimeEvent.make parse id series kind title bgn fin
        description url).«end» = none) := by
  refine ⟨rfl, ?_, ?_, ?_⟩
  · intro hp
    unfold strToMoment
    split
    · exact hp
    · rfl
  · intro hl
    unfold strToMoment
    rw [if_pos hl]
  · simp only [TimeEvent.make]
    exact Option.isNone_iff_eq_none

/-- A concrete injected parse function accepting exactly "2000". -/
def exParse : String → Option Time :=
  fun s => if s = "2000" then some 946684800000 else none

theorem c8_parse_total_witness :
    strToMoment exParse "" = none ∧
    strToMoment exParse "abc" = none ∧
    strToMoment exParse "2000" = exParse "2000" ∧
    ((TimeEvent.make exParse 1 "X" "2" "t" "2000" "" "" "").hasNoEnd = true ↔
      (TimeEvent.make exParse 1 "X" "2" "t" "2000" "" "" "").«end» = none) :=
  ⟨(c8_parse_total exParse "abc" 1 "X" "2" "t" "2000" "" "" "").1,
   (c8_parse_total exParse "abc" 1 "X" "2" "t" "2000" "" "" "").2.1 rfl,
   (c8_parse_total exParse "2000" 1 "X" "2" "t" "2000" "" "" "").2.2.1
     (by decide),
   (c8_parse_total exParse "2000" 1 "X" "2" "t" "2000" "" "" "").2.2.2⟩

/-! ### Shape generation (C9) -/

/-- One SVG path token: a command letter or a numeric argument.  The
source's `build()` joins these with spaces; the model keeps the token
list. -/
inductive PathToken where
  | cmd (c : String)
  | num (q : ℚ)
deriving DecidableEq

/-- The `SvgPathBuilder` state (svg-path-builder.ts): the pushed tokens,
the saved initial and current positions, and the absolute/relative flag. -/
structure SvgPathBuilder where
  path : List PathToken
  initialPosition : ℚ × ℚ
  currentPosition : ℚ × ℚ
  useAbsolute : Bool

/-- The `SvgPathBuilder` constructor. -/
def mkSvgPathBuilder (useAbsolute : Bool) : SvgPathBuilder :=
  { path := [], initialPosition := (0, 0), currentPosition := (0, 0)
    useAbsolute := useAbsolute }

/-- `moveTo`: push M/m x y, save initial and current position. -/
def SvgPathBuilder.moveTo (s : SvgPathBuilder) (x y : ℚ) : SvgPathBuilder :=
  { s with
    path := s.path ++
      [.cmd (if s.useAbsolute then "M" else "m"), .num x, .num y]
    initialPosition := (x, y)
    currentPosition := (x, y) }

/-- `lineTo`: push L/l x y, save initial and current position. -/
def SvgPathBuilder.lineTo (s : SvgPathBuilder) (x y : ℚ) : SvgPathBuilder :=
  { s with
    path := s.path ++
      [.cmd (if s.useAbsolute then "L" else "l"), .num x, .num y]
    initialPosition := (x, y)
    currentPosition := (x, y) }

/-- `horizontalTo`: push H/h x, save current x only. -/
def SvgPathBuilder.horizontalTo (s : SvgPathBuilder) (x : ℚ) :
    SvgPathBuilder :=
  { s with
    path := s.path ++ [.cmd (if s.useAbsolute then "H" else "h"), .num x]
    currentPosition := (x, s.currentPosition.2) }

/-- `verticalTo`: push V/v y, save current y only. -/
def SvgPathBuilder.verticalTo (s : SvgPathBuilder) (y : ℚ) :
    SvgPathBuilder :=
  { s with
    path := s.path ++ [.cmd (if s.useAbsolute then "V" else "v"), .num y]
    currentPosition := (s.currentPosition.1, y) }

/-- `arcTo`: push A/a rx ry rot largeArcFlag sweepFlag x y, save current
position. -/
def SvgPathBuilder.arcTo (s : SvgPathBuilder)
    (rx ry rAxisRotation : ℚ) (largeArcFlag sweepFlag : Bool)
    (x y : ℚ) : SvgPathBuilder :=
  { s with
    path := s.path ++
      [.cmd (if s.useAbsolute then "A" else "a"), .num rx, .num ry,
       .num rAxisRotation, .num (if largeArcFlag then 1 else 0),
       .num (if sweepFlag then 1 else 0), .num x, .num y]
    currentPosition := (x, y) }

/-- `roundTo`: an arc whose radii span from the current position to the
target (the source's default `isClockwise = true` is passed explicitly). -/
def SvgPathBuilder.roundTo (s : SvgPathBuilder) (x y : ℚ)
    (isClockwise : Bool) : SvgPathBuilder :=
  s.arcTo (x - s.currentPosition.1) (y - s.currentPosition.2) 0
    (!isClockwise) isClockwise x y

/-- `close`: push Z, return the current position to the initial one. -/
def SvgPathBuilder.close (s : SvgPathBuilder) : SvgPathBuilder :=
  { s with
    path := s.path ++ [.cmd "Z"]
    currentPosition := s.initialPosition }

/-- `build()`: the accumulated path (the source joins it with spaces). -/
def SvgPathBuilder.build (s : SvgPathBuilder) : List PathToken := s.path

/-- `calculateEventWidth`: pixels spanned from begin to end (or to the
current date when the event has no end); `none` models the exception
thrown on a null date. -/
def calculateEventWidth (ts : TimeScale) (currentDate : Time)
    (datum : TimeEvent) : Option ℤ :=
  match datum.begin with
  | none => none
  | some b =>
    if datum.hasNoEnd then some (ts.scale currentDate - ts.scale b)
    else (datum.«end»).map (fun en => ts.scale en - ts.scale b)

/-- `drawPin` (timeline.ts lines 276-288): the fixed teardrop pin. -/
def drawPin : List PathToken :=
  let r : ℚ := 2 / 6 * EVENT_HEIGHT
  (((((mkSvgPathBuilder true).moveTo 0 EVENT_HEIGHT).lineTo (-r) r).arcTo
      r r 0 true true r r).close).build

/-- `drawRoundRectangle` (timeline.ts lines 247-274): a capsule outline,
square-ended on the right for events with no end; `none` models the
exception on a null date. -/
def drawRoundRectangle (ts : TimeScale) (currentDate : Time)
    (event : TimeEvent) : Option (List PathToken) :=
  (calculateEventWidth ts currentDate event).map (fun wZ =>
    let w : ℚ := (wZ : ℚ)
    let radius : ℚ := EVENT_HEIGHT / 2
    let p0 := ((mkSvgPathBuilder true).moveTo 0 radius).roundTo radius 0 true
    let p1 :=
      if event.hasNoEnd then (p0.horizontalTo w).verticalTo EVENT_HEIGHT
      else ((p0.horizontalTo (w - radius)).roundTo w radius true).roundTo
        (w - radius) EVENT_HEIGHT true
    (((p1.horizontalTo radius).roundTo 0 radius true).close).build)

/-- `generateEventCellPath` (timeline.ts lines 290-300): dispatch on the
event kind; the default branch throws `Error('Unknown event type')`
(modelled as `Except.error`), and a null date inside `drawRoundRectangle`
would throw a TypeError (modelled as `Except.error "TypeError"`). -/
def generateEventCellPath (ts : TimeScale) (currentDate : Time)
    (event : TimeEvent) : Except String (List PathToken) :=
  if event.kind == some instantKind then Except.ok drawPin
  else if event.kind == some intervalKind then
    match drawRoundRectangle ts currentDate event with
    | some p => Except.ok p
    | none => Except.error "TypeError"
  else Except.error "Unknown event type"

/-- An event with the invalid kind value 3. -/
def evK3 : TimeEvent :=
  { id := 7, series := "X", kind := some 3, title := "k"
    begin := some 0, «end» := some 1, hasNoEnd := false
    description := "", url := "" }

/-- An event with the invalid kind value 4. -/
def evK4 : TimeEvent :=
  { id := 8, series := "X", kind := some 4, title := "k"
    begin := some 0, «end» := some 1, hasNoEnd := false
    description := "", url := "" }

/-- C9 counterexample: the claim says the thrown error's message
identifies the offending kind value; in the code the message is the fixed
string `Unknown event type` — two events with distinct invalid kinds (3
and 4) produce the identical message, so the message identifies no kind
value. -/
theorem c9_error_message_counterexample :
    generateEventCellPath exScale 0 evK3
      = Except.error "Unknown event type" ∧
    generateEventCellPath exScale 0 evK4
      = Except.error "Unknown event type" ∧
    (evK3.kind == evK4.kind) = false :=
  ⟨rfl, rfl, by decide⟩

/-- C9 amended: shape generation dispatches on the kind — Instant yields
the pin path, Interval yields the rounded-rectangle path (when its dates
are present), and any other kind fails fast with the FIXED message
`Unknown event type`, which does not include the offending kind value. -/
theorem c9_shape_dispatch (ts : TimeScale) (currentDate : Time)
    (e : TimeEvent) :
    (e.kind = some instantKind →
      generateEventCellPath ts currentDate e = Except.ok drawPin) ∧
    (e.kind = some intervalKind →
      ∀ p, drawRoundRectangle ts currentDate e = some p →
        generateEventCellPath ts currentDate e = Except.ok p) ∧
    (e.kind ≠ some instantKind → e.kind ≠ some intervalKind →
      generateEventCellPath ts currentDate e
        = Except.error "Unknown event type") := by
  refine ⟨?_, ?_, ?_⟩
  · intro hk
    simp [generateEventCellPath, hk]
  · intro hk p hp
    have hki : (e.kind == some instantKind) = false := by
      rw [hk]
      decide
    have hkv : (e.kind == some intervalKind) = true := by
      rw [hk]
      decide
    simp [generateEventCellPath, hki, hkv, hp]
  · intro h1 h2
    have hk1 : (e.kind == some instantKind) = false :=
      beq_eq_false_iff_ne.mpr h1
    have hk2 : (e.kind == some intervalKind) = false :=
      beq_eq_false_iff_ne.mpr h2
    simp [generateEventCellPath, hk1, hk2]

/-- The concrete rounded-rectangle path of `evA`. -/
def exRectA : List PathToken :=
  (drawRoundRectangle exScale 0 evA).getD []

theorem c9_shape_dispatch_witness :
    generateEventCellPath exScale 0 evC = Except.ok drawPin ∧
    generateEventCellPath exScale 0 evA = Except.ok exRectA ∧
    generateEventCellPath exScale 0 evK3
      = Except.error "Unknown event type" :=
  ⟨(c9_shape_dispatch exScale 0 evC).1 rfl,
   (c9_shape_dispatch exScale 0 evA).2.1 rfl exRectA rfl,
   (c9_shape_dispatch exScale 0 evK3).2.2 (by decide) (by decide)⟩

end Epoch
